import Mathlib

/-!
Shallow embedding of the GFSAR sign-in attendance tracker
(`src/index.tsx`).  The application state is the four persistent
collections (`members`, `activeSessions`, `attendanceLog`, `taskNumber`);
the operations below are the core logic handlers of the `App` component,
translated line by line.  Modelling conventions:

* `Date` values are `Nat` milliseconds since the epoch; `new Date()`
  becomes an explicit `now : Nat` argument threaded into the handlers
  that read the clock (`handleSignIn`, `handleSignOut`).
* `Array.prototype.sort(cmp)` with the comparators used in the source
  (total, transitive preorders) is modelled by `List.insertionSort`,
  which like the JS sort produces a stable sorted permutation.
* `localeCompare`, `toLowerCase` and `trim` are modelled character-wise
  on `String.data` (`lexLeB`, `toLowerStr`, `trimStr`), so the kernel can
  evaluate them; the comparison is code-point lexicographic, the source
  only using it as a total comparison for sorting.
* `toLocaleString` date rendering is locale/timezone dependent; it is
  modelled by the decimal millisecond count (a non-empty, digits-only
  rendering).  No claim depends on the exact date text.
* React `setState` updates become pure functions `AppState → AppState`;
  the inline validation errors (`setError`) become `Except String`.
-/

namespace GFSAR

/-- `interface Member { name: string }` (src/index.tsx:10-12). -/
structure Member where
  name : String
deriving DecidableEq, Repr

/-- `interface ActiveSession { name; signInTime }` (src/index.tsx:14-17). -/
structure ActiveSession where
  name : String
  signInTime : Nat
deriving DecidableEq, Repr

/-- `interface LogEntry { name; signInTime; signOutTime }` (src/index.tsx:19-23). -/
structure LogEntry where
  name : String
  signInTime : Nat
  signOutTime : Nat
deriving DecidableEq, Repr

/-- The persistent application state: the four `usePersistentState`
collections of the `App` component (src/index.tsx:78-81). -/
structure AppState where
  members : List Member
  activeSessions : List ActiveSession
  attendanceLog : List LogEntry
  taskNumber : String
deriving DecidableEq, Repr

/-- Code-point lexicographic comparison on character lists: the model of
JS `a.localeCompare(b) <= 0` (the source only uses `localeCompare` as a
total comparison for sorting; the locale-specific collation details are
modelled by the code-point order). -/
def lexLeB : List Char → List Char → Bool
  | [], _ => true
  | _ :: _, [] => false
  | a :: as, b :: bs => if a < b then true else if b < a then false else lexLeB as bs

theorem lexLeB_total : ∀ l1 l2 : List Char, lexLeB l1 l2 = true ∨ lexLeB l2 l1 = true := by
  intro l1
  induction l1 with
  | nil => intro l2; exact Or.inl rfl
  | cons a as ih =>
    intro l2
    cases l2 with
    | nil => exact Or.inr rfl
    | cons b bs =>
      by_cases hab : a < b
      · left
        simp [lexLeB, hab]
      · by_cases hba : b < a
        · right
          simp [lexLeB, hba]
        · rcases ih bs with h | h
          · left
            simp [lexLeB, hab, hba, h]
          · right
            simp [lexLeB, hab, hba, h]

theorem lexLeB_trans : ∀ l1 l2 l3 : List Char,
    lexLeB l1 l2 = true → lexLeB l2 l3 = true → lexLeB l1 l3 = true := by
  intro l1
  induction l1 with
  | nil => intro l2 l3 _ _; rfl
  | cons a as ih =>
    intro l2 l3 h12 h23
    cases l2 with
    | nil => simp [lexLeB] at h12
    | cons b bs =>
      cases l3 with
      | nil => simp [lexLeB] at h23
      | cons c cs =>
        by_cases hab : a < b
        · by_cases hbc : b < c
          · simp [lexLeB, lt_trans hab hbc]
          · by_cases hcb : c < b
            · simp [lexLeB, hbc, hcb] at h23
            · have hbeqc : b = c := le_antisymm (not_lt.mp hcb) (not_lt.mp hbc)
              simp [lexLeB, hbeqc ▸ hab]
        · by_cases hba : b < a
          · simp [lexLeB, hab, hba] at h12
          · have haeqb : a = b := le_antisymm (not_lt.mp hba) (not_lt.mp hab)
            subst haeqb
            by_cases hac : a < c
            · simp [lexLeB, hac]
            · by_cases hca : c < a
              · simp [lexLeB, hac, hca] at h23
              · simp only [lexLeB, if_neg hab, if_neg hac, if_neg hca] at h12 h23 ⊢
                exact ih bs cs h12 h23

/-- The string order the sorts use. -/
def nameLe (a b : String) : Prop := lexLeB a.data b.data = true

instance : DecidableRel nameLe := fun a b => by
  unfold nameLe; infer_instance

/-- Comparator `(a, b) => a.name.localeCompare(b.name)` on members, as the
order it sorts by. -/
def memberLe (a b : Member) : Prop := nameLe a.name b.name

instance : DecidableRel memberLe := fun a b => by
  unfold memberLe; infer_instance

instance : IsTotal Member memberLe := ⟨fun a b => lexLeB_total a.name.data b.name.data⟩

instance : IsTrans Member memberLe := ⟨fun _ _ _ h h' => lexLeB_trans _ _ _ h h'⟩

/-- Comparator `(a, b) => a.name.localeCompare(b.name)` on active
sessions, as the order it sorts by. -/
def sessionLe (a b : ActiveSession) : Prop := nameLe a.name b.name

instance : DecidableRel sessionLe := fun a b => by
  unfold sessionLe; infer_instance

instance : IsTotal ActiveSession sessionLe := ⟨fun a b => lexLeB_total a.name.data b.name.data⟩

instance : IsTrans ActiveSession sessionLe := ⟨fun _ _ _ h h' => lexLeB_trans _ _ _ h h'⟩

/-- JS `String.prototype.toLowerCase`, modelled character-wise so the
kernel can evaluate it. -/
def toLowerStr (s : String) : String := String.mk (s.data.map Char.toLower)

/-- JS `String.prototype.trim`: strips leading and trailing whitespace,
modelled on the character list so the kernel can evaluate it. -/
def trimStr (s : String) : String :=
  String.mk (((s.data.dropWhile Char.isWhitespace).reverse.dropWhile
    Char.isWhitespace).reverse)

/-- `PREDEFINED_MEMBERS` (src/index.tsx:32-42). -/
def PREDEFINED_MEMBERS : List String :=
  ["Andres Dean", "Barry Savitskoff", "Ben Peach", "Bill Sperling", "Brad Siemens",
   "Brennan Zorn", "Cavan Gates", "Chris Williams", "Christina Mavinic", "Clayton Marr",
   "Connie Bielert", "David Bryan", "Derek Pankoff", "Duke Enns", "Duncan Redfearn",
   "Erik Skaaning", "Erin Peach", "Graham Watt", "Grant Burnard", "Jackie Schott",
   "Jason Hall", "Jason Hugh", "Jennifer Erlendson", "John Wheeler", "John Younk",
   "Jon Wilson", "Justin Darbyshire", "Ken Lazeroff", "Kristina Anderson", "Madeline Williams",
   "Michael Slatnik", "Nathan Hein", "Nicky Winn", "Rebecca Massey", "Rocky Olsen",
   "Scott Lamont", "Skye Fletcher", "Spencer Novokshonoff", "Steve Danshin", "Trevor Carson",
   "Tyrell Polzin"]

/-- `sortedPredefinedMembers = PREDEFINED_MEMBERS.map(name => ({name}))
.sort((a,b) => a.name.localeCompare(b.name))` (src/index.tsx:43). -/
def sortedPredefinedMembers : List Member :=
  List.insertionSort memberLe (PREDEFINED_MEMBERS.map fun name => { name })

/-- The default state: the initial values of the four
`usePersistentState` hooks (src/index.tsx:78-81). -/
def initialState : AppState :=
  { members := sortedPredefinedMembers
    activeSessions := []
    attendanceLog := []
    taskNumber := "" }

/-- `members.filter(m => !activeSessions.some(s => s.name === m.name))`,
computed identically in `openSignInModal` (src/index.tsx:168) and as
`availableMembersForSignIn` (src/index.tsx:364). -/
def availableMembersForSignIn (s : AppState) : List Member :=
  s.members.filter fun m => ¬ s.activeSessions.any fun ses => ses.name = m.name

/-- `handleSignIn` (src/index.tsx:193-199): no-op on an empty name,
otherwise appends `{name, signInTime: new Date()}` and re-sorts the
active sessions by name.  The name argument is the `signInMemberName`
state the modal submits; the handler itself performs no roster or
duplicate-session check. -/
def handleSignIn (name : String) (now : Nat) (s : AppState) : AppState :=
  if name = "" then s
  else
    { s with
      activeSessions :=
        List.insertionSort sessionLe
          (s.activeSessions ++ [{ name := name, signInTime := now }]) }

/-- `handleSignOut` (src/index.tsx:201-214): finds the first active
session with the given name; if none, no-op; otherwise prepends the
completed `LogEntry` (with `signOutTime := now`) to the log and removes
every active session with that name. -/
def handleSignOut (memberName : String) (now : Nat) (s : AppState) : AppState :=
  match s.activeSessions.find? (fun ses => ses.name = memberName) with
  | none => s
  | some sessionToEnd =>
    { s with
      attendanceLog :=
        { name := sessionToEnd.name
          signInTime := sessionToEnd.signInTime
          signOutTime := now } :: s.attendanceLog
      activeSessions := s.activeSessions.filter fun ses => ¬ ses.name = memberName }

/-- The `modalMode === 'add'` path of `handleSaveMember`
(src/index.tsx:216-232): trims the input; errors when the trimmed name
is empty or a case-insensitive duplicate of an existing member; on
success appends the new member and re-sorts by name. -/
def addMember (input : String) (ms : List Member) : Except String (List Member) :=
  if trimStr input = "" then .error "Member name cannot be empty."
  else if ms.any (fun member => (toLowerStr member.name) = (toLowerStr (trimStr input))) then
    .error "A member with this name already exists."
  else
    .ok (List.insertionSort memberLe (ms ++ [{ name := trimStr input }]))

/-- The `modalMode === 'edit'` path of `handleSaveMember`
(src/index.tsx:216-243): trims the new name; errors when it is empty or
a case-insensitive duplicate of a member other than the one being
renamed (`member.name !== memberToEdit.name`); on success rewrites
`oldName` to the trimmed name in members (re-sorted), active sessions
(re-sorted) and the log. -/
def renameMember (oldName : String) (input : String) (s : AppState) :
    Except String AppState :=
  if trimStr input = "" then .error "Member name cannot be empty."
  else if s.members.any (fun member =>
      (toLowerStr member.name) = (toLowerStr (trimStr input)) ∧ ¬ member.name = oldName) then
    .error "A member with this name already exists."
  else
    .ok { s with
      members :=
        List.insertionSort memberLe
          (s.members.map fun m =>
            if m.name = oldName then { m with name := trimStr input } else m)
      activeSessions :=
        List.insertionSort sessionLe
          (s.activeSessions.map fun ses =>
            if ses.name = oldName then { ses with name := trimStr input } else ses)
      attendanceLog :=
        s.attendanceLog.map fun e =>
          if e.name = oldName then { e with name := trimStr input } else e }

/-- The confirmed `deleteAction` of `handleDeleteMember`
(src/index.tsx:245-259): removes the member and every active session and
log entry with that name. -/
def deleteMember (memberNameToDelete : String) (s : AppState) : AppState :=
  { s with
    members := s.members.filter fun m => ¬ m.name = memberNameToDelete
    activeSessions := s.activeSessions.filter fun ses => ¬ ses.name = memberNameToDelete
    attendanceLog := s.attendanceLog.filter fun l => ¬ l.name = memberNameToDelete }

/-- `handleSaveMemberList` (src/index.tsx:265-273): replaces the roster
with the edited list re-sorted by name, and clears the active sessions
and the log. -/
def replaceRoster (editingMemberList : List Member) (s : AppState) : AppState :=
  { s with
    members :=
      List.insertionSort memberLe (editingMemberList.map fun member => { name := member.name })
    activeSessions := []
    attendanceLog := [] }

/-- `handleStartNewTask` (src/index.tsx:275-283): no-op when the task
number trims to empty; otherwise sets it and clears sessions and log. -/
def startNewTask (input : String) (s : AppState) : AppState :=
  if trimStr input = "" then s
  else { s with taskNumber := trimStr input, activeSessions := [], attendanceLog := [] }

/-- The confirmed `clearLogAction` of `handleClearLog`
(src/index.tsx:285-296): no-op when both collections are already empty,
otherwise clears both. -/
def clearLog (s : AppState) : AppState :=
  if s.activeSessions = [] ∧ s.attendanceLog = [] then s
  else { s with activeSessions := [], attendanceLog := [] }

/-- The status literals `'Signed In' | 'Signed Out'` attached by the
`sessionLog` transformation (src/index.tsx:303,308). -/
inductive SessionStatus where
  | signedIn
  | signedOut
deriving DecidableEq, Repr

/-- The shape of a `sessionLog` element (src/index.tsx:299-318): a
session or log entry extended with a nullable `signOutTime` and a
status. -/
structure ViewEntry where
  name : String
  signInTime : Nat
  signOutTime : Option Nat
  status : SessionStatus
deriving DecidableEq, Repr

/-- `{...session, signOutTime: null, status: 'Signed In'}`
(src/index.tsx:300-304). -/
def activeEntry (ses : ActiveSession) : ViewEntry :=
  { name := ses.name, signInTime := ses.signInTime
    signOutTime := none, status := .signedIn }

/-- `{...log, status: 'Signed Out'}` (src/index.tsx:306-309). -/
def logEntry (e : LogEntry) : ViewEntry :=
  { name := e.name, signInTime := e.signInTime
    signOutTime := some e.signOutTime, status := .signedOut }

/-- The order the `sessionLog` comparator (src/index.tsx:313-317) sorts
by: `'Signed In'` entries first, then by `signInTime` descending
(`b.signInTime.getTime() - a.signInTime.getTime()` as the comparator
value). -/
def viewLe (a b : ViewEntry) : Prop :=
  (a.status = .signedIn ∧ ¬ b.status = .signedIn) ∨
  (a.status = b.status ∧ b.signInTime ≤ a.signInTime)

instance : DecidableRel viewLe := fun a b => by
  unfold viewLe; infer_instance

instance : IsTotal ViewEntry viewLe := by
  constructor
  intro a b
  unfold viewLe
  rcases le_total b.signInTime a.signInTime with h | h <;>
    cases ha : a.status <;> cases hb : b.status <;> simp_all

instance : IsTrans ViewEntry viewLe := by
  constructor
  rintro a b c (⟨ha, hb⟩ | ⟨hab, htab⟩) (⟨hb', hc⟩ | ⟨hbc, htbc⟩)
  · exact absurd hb' hb
  · exact Or.inl ⟨ha, fun hc => hb (hbc.trans hc)⟩
  · exact Or.inl ⟨hab.trans hb', hc⟩
  · exact Or.inr ⟨hab.trans hbc, htbc.trans htab⟩

/-- `sessionLog` (src/index.tsx:299-318): the active sessions (rendered
with null sign-out and `'Signed In'`) concatenated with the log entries
(rendered with `'Signed Out'`), sorted by the status-then-descending-
sign-in-time comparator. -/
def mergedView (s : AppState) : List ViewEntry :=
  List.insertionSort viewLe
    (s.activeSessions.map activeEntry ++ s.attendanceLog.map logEntry)

/-- `String.prototype.padEnd(width, ' ')`: pads with spaces up to
`width`; never truncates. -/
def padEnd (str : String) (width : Nat) : String :=
  str ++ String.mk (List.replicate (width - str.length) ' ')

/-- `formatDateTime` (src/index.tsx:115-121): the empty string on null.
`toLocaleString` is locale and timezone dependent; the rendered
timestamp is modelled by the decimal millisecond count. -/
def formatDateTime (date : Option Nat) : String :=
  match date with
  | none => ""
  | some d => toString d

/-- `session.status` as rendered in the export rows
(src/index.tsx:303,308,343). -/
def statusText (st : SessionStatus) : String :=
  match st with
  | .signedIn => "Signed In"
  | .signedOut => "Signed Out"

/-- `Math.max(...sessionLog.map(e => e.name.length), 'Member'.length)`
(src/index.tsx:332). -/
def maxNameLength (view : List ViewEntry) : Nat :=
  view.foldr (fun e acc => max e.name.length acc) "Member".length

/-- One data row of the export table (src/index.tsx:341-347): name,
status, sign-in and sign-out columns joined by `" | "`; an in-progress
session renders `'...'` in the sign-out column. -/
def exportRow (width : Nat) (session : ViewEntry) : String :=
  padEnd session.name width ++ " | " ++
  padEnd (statusText session.status) 12 ++ " | " ++
  padEnd (formatDateTime (some session.signInTime)) 22 ++ " | " ++
  (match session.signOutTime with
   | some t => formatDateTime (some t)
   | none => "...") ++ "\n"

/-- The literal emitted when `sessionLog` is empty (src/index.tsx:349). -/
def noRecordsText : String := "\nNo attendance records found.\n"

/-- The table part of the export (src/index.tsx:331-350): header row,
separator row and one row per `sessionLog` entry when the view is
non-empty, the no-records message otherwise. -/
def exportBody (s : AppState) : String :=
  if 0 < (mergedView s).length then
    padEnd "Member" (maxNameLength (mergedView s)) ++ " | " ++
      padEnd "Status" 12 ++ " | " ++
      padEnd "Signed In" 22 ++ " | " ++ "Signed Out" ++ "\n" ++
    String.mk (List.replicate (maxNameLength (mergedView s)) '-') ++ "-+-" ++
      String.mk (List.replicate 12 '-') ++ "-+-" ++
      String.mk (List.replicate 22 '-') ++ "-+-" ++
      String.mk (List.replicate 22 '-') ++ "\n" ++
    String.join ((mergedView s).map (exportRow (maxNameLength (mergedView s))))
  else noRecordsText

/-- The full text produced by `handleDownloadLog` (src/index.tsx:320-350):
title line, optional task line, generation timestamp, rule, then the
body. -/
def formatExport (generatedAt : Nat) (s : AppState) : String :=
  "Grand Forks Search and Rescue - Attendance Log\n" ++
  (if ¬ s.taskNumber = "" then "Task #: " ++ s.taskNumber ++ "\n" else "") ++
  "Generated on: " ++ toString generatedAt ++ "\n" ++
  String.mk (List.replicate 82 '=') ++ "\n\n" ++
  exportBody s

/-- `hay` contains `needle` as a contiguous substring (the JS
`String.prototype.includes` notion, on the character lists). -/
def containsStr (hay needle : String) : Prop :=
  List.IsInfix needle.data hay.data

/-- The reachable states of the tracker: the initial state followed by
any sequence of the core handlers.  The `Nat` component is the greatest
clock value any executed handler has observed; `new Date()` never runs
backwards across handler invocations, so time-reading steps require
`t ≤ now`. -/
inductive Reachable : AppState → Nat → Prop where
  | init (t : Nat) : Reachable initialState t
  | signIn {s t} (name : String) (now : Nat) (hle : t ≤ now)
      (h : Reachable s t) : Reachable (handleSignIn name now s) now
  | signOut {s t} (name : String) (now : Nat) (hle : t ≤ now)
      (h : Reachable s t) : Reachable (handleSignOut name now s) now
  | add {s t} (input : String) (ms : List Member)
      (hok : addMember input s.members = .ok ms)
      (h : Reachable s t) : Reachable { s with members := ms } t
  | rename {s t} (oldName input : String) (s1 : AppState)
      (hok : renameMember oldName input s = .ok s1)
      (h : Reachable s t) : Reachable s1 t
  | delete {s t} (name : String)
      (h : Reachable s t) : Reachable (deleteMember name s) t
  | replace {s t} (l : List Member)
      (h : Reachable s t) : Reachable (replaceRoster l s) t
  | newTask {s t} (input : String)
      (h : Reachable s t) : Reachable (startNewTask input s) t
  | clear {s t} (h : Reachable s t) : Reachable (clearLog s) t

/-- The name rewrite a rename applies to a merged-view entry: only the
`name` field changes, and only when it equals the old name. -/
def renameEntry (oldName newName : String) (e : ViewEntry) : ViewEntry :=
  if e.name = oldName then { e with name := newName } else e

/-- A run in which the clock does not advance between a sign-in and the
following sign-out: both handlers observe time 0. -/
def clockStuckState : AppState :=
  handleSignOut "Andres Dean" 0 (handleSignIn "Andres Dean" 0 initialState)

/-! ### General lemmas about the merged view and the sorts -/

theorem mergedView_perm (s : AppState) :
    (mergedView s).Perm (s.activeSessions.map activeEntry ++ s.attendanceLog.map logEntry) :=
  List.perm_insertionSort _ _

theorem mergedView_sorted (s : AppState) : (mergedView s).Sorted viewLe :=
  List.sorted_insertionSort _ _

/-- An active session's rendering precedes a log entry's rendering in
the comparator order, whatever the timestamps. -/
theorem viewLe_active_log (a : ActiveSession) (e : LogEntry) :
    viewLe (activeEntry a) (logEntry e) := by
  left
  constructor
  · rfl
  · intro h
    simp [logEntry] at h

/-- C1: `mergedView()` renders every active session with a null sign-out
time and signed-in status and every log entry with its recorded sign-out
time and signed-out status (the output is a permutation of exactly those
renderings), orders signed-in entries before signed-out entries and each
group by `signInTime` descending, and on a state with one active session
and one log entry with an earlier `signInTime` puts the active session
first. -/
theorem mergedView_renders_and_orders (s : AppState) (ms : List Member) (tk : String)
    (a : ActiveSession) (e : LogEntry) (hEarlier : e.signInTime < a.signInTime) :
    (mergedView s).Perm (s.activeSessions.map activeEntry ++ s.attendanceLog.map logEntry) ∧
    (mergedView s).Pairwise (fun x y =>
      (x.status = .signedOut → y.status = .signedOut) ∧
      (x.status = y.status → y.signInTime ≤ x.signInTime)) ∧
    mergedView { members := ms, activeSessions := [a], attendanceLog := [e], taskNumber := tk }
      = [activeEntry a, logEntry e] := by
  refine ⟨mergedView_perm s, ?_, ?_⟩
  · refine (mergedView_sorted s).imp ?_
    rintro x y (⟨hx, hy⟩ | ⟨hxy, ht⟩)
    · constructor
      · intro hout
        rw [hx] at hout
        cases hout
      · intro hsame
        exact absurd (hsame ▸ hx) hy
    · exact ⟨fun hout => hxy ▸ hout, fun _ => ht⟩
  · show List.insertionSort viewLe ([activeEntry a] ++ [logEntry e]) = _
    simp only [List.cons_append, List.nil_append, List.insertionSort,
      List.orderedInsert]
    rw [if_pos (viewLe_active_log a e)]

/-- C1 witness: the theorem at a concrete state, session and entry. -/
theorem mergedView_renders_and_orders_witness :
    mergedView { members := [], activeSessions := [⟨"Ann", 9⟩],
                 attendanceLog := [⟨"Bob", 3, 5⟩], taskNumber := "" }
      = [activeEntry ⟨"Ann", 9⟩, logEntry ⟨"Bob", 3, 5⟩] :=
  (mergedView_renders_and_orders
    { members := [], activeSessions := [⟨"Ann", 9⟩],
      attendanceLog := [⟨"Bob", 3, 5⟩], taskNumber := "" }
    [] "" ⟨"Ann", 9⟩ ⟨"Bob", 3, 5⟩ (by decide)).2.2

/-- C7: `replaceRoster` installs the given list re-sorted by name and
always leaves both the active sessions and the log empty, whatever the
prior state held. -/
theorem replaceRoster_clears_sessions_and_log (l : List Member) (s : AppState) :
    (replaceRoster l s).activeSessions = [] ∧
    (replaceRoster l s).attendanceLog = [] ∧
    ((replaceRoster l s).members).Perm l ∧
    (replaceRoster l s).members.Sorted memberLe := by
  refine ⟨rfl, rfl, ?_, List.sorted_insertionSort _ _⟩
  refine (List.perm_insertionSort _ _).trans ?_
  simp

/-- For any non-empty name, `handleSignIn` grows the active-session
collection by exactly one: it performs no duplicate-session check. -/
theorem handleSignIn_length (s : AppState) (name : String) (now : Nat)
    (h : ¬ name = "") :
    (handleSignIn name now s).activeSessions.length = s.activeSessions.length + 1 := by
  unfold handleSignIn
  rw [if_neg h]
  have hperm := List.perm_insertionSort sessionLe
    (s.activeSessions ++ [{ name := name, signInTime := now }])
  simpa using hperm.length_eq

/-- C2 counterexample: `handleSignIn` performs no active-session check,
so signing in a name that already has an active session is not a no-op:
with one active session for "Alice", signing "Alice" in again yields two
active sessions. -/
theorem signIn_on_active_name_not_noop :
    (⟨[⟨"Alice"⟩], [⟨"Alice", 0⟩], [], ""⟩ : AppState).activeSessions.length = 1 ∧
    (handleSignIn "Alice" 5
        ⟨[⟨"Alice"⟩], [⟨"Alice", 0⟩], [], ""⟩).activeSessions.length = 2 := by
  constructor
  · rfl
  · rw [handleSignIn_length _ _ _ (by decide)]
    rfl

/-- C2 (amended): `signIn` is a silent no-op exactly for the empty name;
the already-active case is prevented by the caller instead (the sign-in
candidate list only offers members without an active session), and
`handleSignIn` itself appends a session unconditionally, growing the
collection by one for any non-empty name. -/
theorem signIn_silent_noop_guards (s : AppState) (name : String) (now : Nat) :
    (name = "" → handleSignIn name now s = s) ∧
    (∀ m ∈ availableMembersForSignIn s, ∀ ses ∈ s.activeSessions, ¬ ses.name = m.name) ∧
    (¬ name = "" →
      (handleSignIn name now s).activeSessions.length = s.activeSessions.length + 1) := by
  refine ⟨?_, ?_, ?_⟩
  · intro h
    simp [handleSignIn, h]
  · intro m hm ses hses h
    unfold availableMembersForSignIn at hm
    rw [List.mem_filter] at hm
    rcases hm with ⟨-, hm2⟩
    simp only [List.any_eq_true, decide_eq_true_eq, not_exists, not_and] at hm2
    exact hm2 ses hses h
  · exact handleSignIn_length s name now

/-- C2 witness: the amended theorem at a concrete state and name. -/
theorem signIn_silent_noop_guards_witness :
    (handleSignIn "Ann" 3 ⟨[], [], [], ""⟩).activeSessions.length
      = (⟨[], [], [], ""⟩ : AppState).activeSessions.length + 1 :=
  (signIn_silent_noop_guards ⟨[], [], [], ""⟩ "Ann" 3).2.2 (by decide)

/-- C9: `signIn` performs no roster-membership check: for a non-empty
name with no active session under it, even one absent from the member
roster, it appends a new active session carrying the current timestamp
and leaves the roster untouched. -/
theorem signIn_ignores_roster (s : AppState) (name : String) (now : Nat)
    (hne : ¬ name = "")
    (hnoactive : ∀ ses ∈ s.activeSessions, ¬ ses.name = name)
    (hnotmember : ∀ m ∈ s.members, ¬ m.name = name) :
    ({ name := name, signInTime := now } : ActiveSession)
        ∈ (handleSignIn name now s).activeSessions ∧
    ((handleSignIn name now s).activeSessions).Perm
        (s.activeSessions ++ [{ name := name, signInTime := now }]) ∧
    (handleSignIn name now s).members = s.members := by
  unfold handleSignIn
  rw [if_neg hne]
  refine ⟨?_, List.perm_insertionSort _ _, rfl⟩
  rw [List.mem_insertionSort]
  simp

/-- C9 witness: "Zed" is not on the one-member roster yet signs in. -/
theorem signIn_ignores_roster_witness :
    ({ name := "Zed", signInTime := 7 } : ActiveSession)
      ∈ (handleSignIn "Zed" 7 ⟨[⟨"Ann"⟩], [], [], ""⟩).activeSessions :=
  (signIn_ignores_roster ⟨[⟨"Ann"⟩], [], [], ""⟩ "Zed" 7
    (by decide) (by simp) (by decide)).1

/-! ### Destructuring the successful save paths -/

theorem addMember_ok {input : String} {ms ms' : List Member}
    (hok : addMember input ms = .ok ms') :
    ¬ trimStr input = "" ∧
    (∀ m ∈ ms, ¬ (toLowerStr m.name) = (toLowerStr (trimStr input))) ∧
    ms' = List.insertionSort memberLe (ms ++ [{ name := trimStr input }]) := by
  unfold addMember at hok
  split_ifs at hok with h1 h2
  · refine ⟨h1, ?_, (Except.ok.injEq _ _).mp hok.symm⟩
    intro m hm
    simp only [List.any_eq_true, decide_eq_true_eq, not_exists, not_and] at h2
    exact h2 m hm

theorem renameMember_ok {oldName input : String} {s s1 : AppState}
    (hok : renameMember oldName input s = .ok s1) :
    ¬ trimStr input = "" ∧
    s1.members = List.insertionSort memberLe
      (s.members.map fun m =>
        if m.name = oldName then { m with name := trimStr input } else m) ∧
    s1.activeSessions = List.insertionSort sessionLe
      (s.activeSessions.map fun ses =>
        if ses.name = oldName then { ses with name := trimStr input } else ses) ∧
    s1.attendanceLog = s.attendanceLog.map
      (fun e => if e.name = oldName then { e with name := trimStr input } else e) ∧
    s1.taskNumber = s.taskNumber := by
  unfold renameMember at hok
  split_ifs at hok with h1 h2
  cases hok
  exact ⟨h1, rfl, rfl, rfl, rfl⟩

/-! ### Clock and log invariants along reachable executions -/

/-- Every active session was opened no later than the latest clock value
any handler has observed. -/
theorem reachable_sessions_le {s : AppState} {t : Nat} (h : Reachable s t) :
    ∀ ses ∈ s.activeSessions, ses.signInTime ≤ t := by
  induction h with
  | init t =>
    intro ses hmem
    cases hmem
  | signIn name now hle hprev ih =>
    intro ses hmem
    unfold handleSignIn at hmem
    split at hmem
    · exact le_trans (ih ses hmem) hle
    · rw [List.mem_insertionSort, List.mem_append] at hmem
      rcases hmem with hmem | hmem
      · exact le_trans (ih ses hmem) hle
      · rw [List.mem_singleton] at hmem
        subst hmem
        exact le_rfl
  | signOut name now hle hprev ih =>
    intro ses hmem
    unfold handleSignOut at hmem
    split at hmem
    · exact le_trans (ih ses hmem) hle
    · rw [List.mem_filter] at hmem
      exact le_trans (ih ses hmem.1) hle
  | add input ms hok hprev ih => exact ih
  | rename oldName input s1 hok hprev ih =>
    intro ses hmem
    rw [(renameMember_ok hok).2.2.1, List.mem_insertionSort, List.mem_map] at hmem
    rcases hmem with ⟨x, hx, hEq⟩
    have : ses.signInTime = x.signInTime := by
      subst hEq
      split <;> rfl
    rw [this]
    exact ih x hx
  | delete name hprev ih =>
    intro ses hmem
    rw [deleteMember, List.mem_filter] at hmem
    exact ih ses hmem.1
  | replace l hprev ih =>
    intro ses hmem
    cases hmem
  | newTask input hprev ih =>
    intro ses hmem
    unfold startNewTask at hmem
    split at hmem
    · exact ih ses hmem
    · cases hmem
  | clear hprev ih =>
    intro ses hmem
    unfold clearLog at hmem
    split at hmem
    · exact ih ses hmem
    · cases hmem

/-- Every completed log entry was signed in no later than it was signed
out, in every reachable state. -/
theorem reachable_log_le {s : AppState} {t : Nat} (h : Reachable s t) :
    ∀ e ∈ s.attendanceLog, e.signInTime ≤ e.signOutTime := by
  induction h with
  | init t =>
    intro e hmem
    cases hmem
  | signIn name now hle hprev ih =>
    intro e hmem
    unfold handleSignIn at hmem
    split at hmem
    · exact ih e hmem
    · exact ih e hmem
  | signOut name now hle hprev ih =>
    intro e hmem
    unfold handleSignOut at hmem
    split at hmem
    · exact ih e hmem
    · rename_i ses hfind
      rw [List.mem_cons] at hmem
      rcases hmem with hmem | hmem
      · subst hmem
        exact le_trans
          (reachable_sessions_le hprev ses (List.mem_of_find?_eq_some hfind)) hle
      · exact ih e hmem
  | add input ms hok hprev ih => exact ih
  | rename oldName input s1 hok hprev ih =>
    intro e hmem
    rw [(renameMember_ok hok).2.2.2.1, List.mem_map] at hmem
    rcases hmem with ⟨x, hx, hEq⟩
    have hin : e.signInTime = x.signInTime := by
      subst hEq
      split <;> rfl
    have hout : e.signOutTime = x.signOutTime := by
      subst hEq
      split <;> rfl
    rw [hin, hout]
    exact ih x hx
  | delete name hprev ih =>
    intro e hmem
    rw [deleteMember, List.mem_filter] at hmem
    exact ih e hmem.1
  | replace l hprev ih =>
    intro e hmem
    cases hmem
  | newTask input hprev ih =>
    intro e hmem
    unfold startNewTask at hmem
    split at hmem
    · exact ih e hmem
    · cases hmem
  | clear hprev ih =>
    intro e hmem
    unfold clearLog at hmem
    split at hmem
    · exact ih e hmem
    · cases hmem

/-- C3 counterexample: the code never compares the two timestamps, so
when sign-in and sign-out fall in the same millisecond the log entry has
`signOutTime = signInTime`, refuting strictness in a reachable state. -/
theorem log_strictness_fails :
    Reachable clockStuckState 0 ∧
    ({ name := "Andres Dean", signInTime := 0, signOutTime := 0 } : LogEntry)
        ∈ clockStuckState.attendanceLog ∧
    ¬ (∀ e ∈ clockStuckState.attendanceLog, e.signInTime < e.signOutTime) := by
  have hmem : ({ name := "Andres Dean", signInTime := 0, signOutTime := 0 } : LogEntry)
      ∈ clockStuckState.attendanceLog := by
    rw [show clockStuckState.attendanceLog
        = [{ name := "Andres Dean", signInTime := 0, signOutTime := 0 }] from rfl]
    exact List.mem_singleton.mpr rfl
  refine ⟨.signOut "Andres Dean" 0 le_rfl (.signIn "Andres Dean" 0 le_rfl (.init 0)),
    hmem, ?_⟩
  intro hall
  exact absurd (hall _ hmem) (by decide)

/-- C3 (amended): in every reachable state every log entry satisfies
`signInTime ≤ signOutTime`; the inequality is not strict in general,
since the sign-out handler merely captures the current clock, which may
equal the stored sign-in time. -/
theorem log_signOut_ge_signIn (s : AppState) (t : Nat) (h : Reachable s t) :
    ∀ e ∈ s.attendanceLog, e.signInTime ≤ e.signOutTime :=
  reachable_log_le h

/-- C3 witness: the amended theorem applied to the one completed entry
of a concrete reachable run. -/
theorem log_signOut_ge_signIn_witness :
    ({ name := "Ben Peach", signInTime := 1, signOutTime := 4 } : LogEntry).signInTime
      ≤ ({ name := "Ben Peach", signInTime := 1, signOutTime := 4 } : LogEntry).signOutTime :=
  log_signOut_ge_signIn
    (handleSignOut "Ben Peach" 4 (handleSignIn "Ben Peach" 1 initialState)) 4
    (.signOut "Ben Peach" 4 (by decide) (.signIn "Ben Peach" 1 (by decide) (.init 0)))
    { name := "Ben Peach", signInTime := 1, signOutTime := 4 } (by decide)

/-- C4: `signOut` is a silent no-op when no active session carries the
name; otherwise it prepends exactly one log entry carrying the found
session's name and sign-in time with `signOutTime = now`, removes the
member's active session(s), and — along any reachable run whose clock
has not passed `now` — the new entry satisfies
`signInTime ≤ signOutTime`. -/
theorem signOut_behavior (s : AppState) (t : Nat) (name : String) (now : Nat)
    (hreach : Reachable s t) (hnow : t ≤ now) :
    ((∀ ses ∈ s.activeSessions, ¬ ses.name = name) → handleSignOut name now s = s) ∧
    (∀ ses, s.activeSessions.find? (fun x => x.name = name) = some ses →
      (handleSignOut name now s).attendanceLog
          = { name := ses.name, signInTime := ses.signInTime, signOutTime := now }
              :: s.attendanceLog ∧
      (handleSignOut name now s).activeSessions
          = s.activeSessions.filter (fun x => ¬ x.name = name) ∧
      (∀ x ∈ (handleSignOut name now s).activeSessions, ¬ x.name = name) ∧
      (handleSignOut name now s).members = s.members ∧
      ses.signInTime ≤ now) := by
  constructor
  · intro hnone
    have hfind : s.activeSessions.find? (fun x => decide (x.name = name)) = none := by
      rw [List.find?_eq_none]
      intro x hx
      simpa using hnone x hx
    unfold handleSignOut
    rw [hfind]
  · intro ses hfind
    have hle : ses.signInTime ≤ now :=
      le_trans (reachable_sessions_le hreach ses (List.mem_of_find?_eq_some hfind)) hnow
    unfold handleSignOut
    rw [hfind]
    refine ⟨rfl, rfl, ?_, rfl, hle⟩
    intro x hx
    rw [List.mem_filter] at hx
    simpa using hx.2

/-- C4 witness: sign-out right after a sign-in at a later clock value
produces the single expected log entry. -/
theorem signOut_behavior_witness :
    (handleSignOut "Andres Dean" 3 (handleSignIn "Andres Dean" 2 initialState)).attendanceLog
      = [{ name := "Andres Dean", signInTime := 2, signOutTime := 3 }] :=
  ((signOut_behavior (handleSignIn "Andres Dean" 2 initialState) 2 "Andres Dean" 3
      (.signIn "Andres Dean" 2 le_rfl (.init 2)) (by decide)).2
    { name := "Andres Dean", signInTime := 2 } rfl).1

/-- C10: in every reachable state the member roster is sorted by the
name comparator: the initial roster is sorted and every roster-touching
operation re-establishes or preserves the order. -/
theorem members_sorted_invariant (s : AppState) (t : Nat) (h : Reachable s t) :
    s.members.Sorted memberLe := by
  induction h with
  | init t => exact List.sorted_insertionSort _ _
  | signIn name now hle hprev ih =>
    unfold handleSignIn
    split
    · exact ih
    · exact ih
  | signOut name now hle hprev ih =>
    unfold handleSignOut
    split
    · exact ih
    · exact ih
  | add input ms hok hprev ih =>
    have := (addMember_ok hok).2.2
    show ms.Sorted memberLe
    rw [this]
    exact List.sorted_insertionSort _ _
  | rename oldName input s1 hok hprev ih =>
    rw [(renameMember_ok hok).2.1]
    exact List.sorted_insertionSort _ _
  | delete name hprev ih =>
    exact List.Pairwise.sublist (List.filter_sublist _) ih
  | replace l hprev ih => exact List.sorted_insertionSort _ _
  | newTask input hprev ih =>
    unfold startNewTask
    split
    · exact ih
    · exact ih
  | clear hprev ih =>
    unfold clearLog
    split
    · exact ih
    · exact ih

/-- C10 witness: the invariant at the initial state. -/
theorem members_sorted_invariant_witness :
    initialState.members.Sorted memberLe :=
  members_sorted_invariant initialState 0 (.init 0)

/-- C5: `addMember` trims its input and fails with the validation error
when the trimmed name is empty or a case-insensitive duplicate of an
existing member (leaving the roster unproduced); otherwise it inserts a
member with exactly the trimmed name, yielding a roster that is the old
one plus the new member, sorted by the name comparator.  Adding the same
name twice, in any letter case, fails the second time. -/
theorem addMember_validation (input : String) (ms : List Member) :
    (trimStr input = "" →
      addMember input ms = .error "Member name cannot be empty.") ∧
    (¬ trimStr input = "" →
      (∃ m ∈ ms, toLowerStr m.name = toLowerStr (trimStr input)) →
      addMember input ms = .error "A member with this name already exists.") ∧
    (¬ trimStr input = "" →
      (∀ m ∈ ms, ¬ toLowerStr m.name = toLowerStr (trimStr input)) →
      ∃ ms', addMember input ms = .ok ms' ∧
        ({ name := trimStr input } : Member) ∈ ms' ∧
        ms'.Perm (ms ++ [{ name := trimStr input }]) ∧
        ms'.Sorted memberLe) ∧
    (∀ ms' input2, addMember input ms = .ok ms' →
      toLowerStr (trimStr input2) = toLowerStr (trimStr input) →
      ¬ trimStr input2 = "" →
      addMember input2 ms' = .error "A member with this name already exists.") := by
  refine ⟨?_, ?_, ?_, ?_⟩
  · intro h
    unfold addMember
    rw [if_pos h]
  · rintro hne ⟨m, hm, heq⟩
    unfold addMember
    rw [if_neg hne, if_pos]
    rw [List.any_eq_true]
    exact ⟨m, hm, by simpa using heq⟩
  · intro hne hnodup
    have hany : ¬ (ms.any fun member =>
        toLowerStr member.name = toLowerStr (trimStr input)) = true := by
      simp only [List.any_eq_true, decide_eq_true_eq, not_exists, not_and]
      exact hnodup
    refine ⟨List.insertionSort memberLe (ms ++ [{ name := trimStr input }]),
      ?_, ?_, List.perm_insertionSort _ _, List.sorted_insertionSort _ _⟩
    · unfold addMember
      rw [if_neg hne, if_neg hany]
    · rw [List.mem_insertionSort]
      simp
  · intro ms' input2 hok heq hne2
    obtain ⟨hne, hnodup, hms'⟩ := addMember_ok hok
    unfold addMember
    rw [if_neg hne2, if_pos]
    rw [List.any_eq_true]
    refine ⟨{ name := trimStr input }, ?_, ?_⟩
    · rw [hms', List.mem_insertionSort]
      simp
    · simpa using heq.symm

/-- C5 witness: after adding "Ann" to an empty roster, adding "ann"
fails with the duplicate error. -/
theorem addMember_validation_witness :
    addMember "ann" (List.insertionSort memberLe ([] ++ [{ name := "Ann" }]))
      = .error "A member with this name already exists." :=
  (addMember_validation "Ann" []).2.2.2
    (List.insertionSort memberLe ([] ++ [{ name := "Ann" }])) "ann"
    (by rfl) (by decide) (by decide)

/-- Renaming commutes with rendering an active session in the view. -/
theorem renameEntry_activeEntry (o n : String) (ses : ActiveSession) :
    activeEntry (if ses.name = o then { ses with name := n } else ses)
      = renameEntry o n (activeEntry ses) := by
  by_cases h : ses.name = o <;> simp [activeEntry, renameEntry, h]

/-- Renaming commutes with rendering a log entry in the view. -/
theorem renameEntry_logEntry (o n : String) (e : LogEntry) :
    logEntry (if e.name = o then { e with name := n } else e)
      = renameEntry o n (logEntry e) := by
  by_cases h : e.name = o <;> simp [logEntry, renameEntry, h]

/-- C6: a successful rename propagates the trimmed new name to the
members (re-sorted), active sessions (re-sorted) and log entries whose
name equals the old name, and the merged view keeps the same number of
entries, each differing only in the name field. -/
theorem renameMember_propagates (s : AppState) (oldName input : String)
    (hne : ¬ trimStr input = "")
    (hdup : ∀ m ∈ s.members,
      toLowerStr m.name = toLowerStr (trimStr input) → m.name = oldName) :
    ∃ s1, renameMember oldName input s = .ok s1 ∧
      s1.members.Perm (s.members.map fun m =>
        if m.name = oldName then { m with name := trimStr input } else m) ∧
      s1.members.Sorted memberLe ∧
      s1.activeSessions.Perm (s.activeSessions.map fun ses =>
        if ses.name = oldName then { ses with name := trimStr input } else ses) ∧
      s1.activeSessions.Sorted sessionLe ∧
      s1.attendanceLog = s.attendanceLog.map
        (fun e => if e.name = oldName then { e with name := trimStr input } else e) ∧
      (mergedView s1).length = (mergedView s).length ∧
      (mergedView s1).Perm ((mergedView s).map (renameEntry oldName (trimStr input))) := by
  have hany : ¬ (s.members.any fun member =>
      toLowerStr member.name = toLowerStr (trimStr input)
        ∧ ¬ member.name = oldName) = true := by
    simp only [List.any_eq_true, decide_eq_true_eq, not_exists, not_and]
    intro m hm hlow
    simp [hdup m hm hlow]
  have hok : renameMember oldName input s = .ok { s with
      members :=
        List.insertionSort memberLe
          (s.members.map fun m =>
            if m.name = oldName then { m with name := trimStr input } else m)
      activeSessions :=
        List.insertionSort sessionLe
          (s.activeSessions.map fun ses =>
            if ses.name = oldName then { ses with name := trimStr input } else ses)
      attendanceLog :=
        s.attendanceLog.map fun e =>
          if e.name = oldName then { e with name := trimStr input } else e } := by
    unfold renameMember
    rw [if_neg hne, if_neg hany]
  refine ⟨_, hok, List.perm_insertionSort _ _, List.sorted_insertionSort _ _,
    List.perm_insertionSort _ _, List.sorted_insertionSort _ _, rfl, ?_, ?_⟩
  all_goals
    have hview : (mergedView { s with
        members :=
          List.insertionSort memberLe
            (s.members.map fun m =>
              if m.name = oldName then { m with name := trimStr input } else m)
        activeSessions :=
          List.insertionSort sessionLe
            (s.activeSessions.map fun ses =>
              if ses.name = oldName then { ses with name := trimStr input } else ses)
        attendanceLog :=
          s.attendanceLog.map fun e =>
            if e.name = oldName then { e with name := trimStr input } else e }).Perm
        ((mergedView s).map (renameEntry oldName (trimStr input))) := by
      refine (mergedView_perm _).trans (.trans ?_ ((mergedView_perm s).map _).symm)
      rw [List.map_append, List.map_map, List.map_map]
      refine List.Perm.append ?_ ?_
      · refine ((List.perm_insertionSort sessionLe _).map _).trans ?_
        rw [List.map_map]
        rw [show (activeEntry ∘ fun ses =>
            if ses.name = oldName then { ses with name := trimStr input } else ses)
          = (renameEntry oldName (trimStr input) ∘ activeEntry)
          from funext fun ses => renameEntry_activeEntry oldName (trimStr input) ses]
      · rw [List.map_map,
          show (logEntry ∘ fun e =>
            if e.name = oldName then { e with name := trimStr input } else e)
          = (renameEntry oldName (trimStr input) ∘ logEntry)
          from funext fun e => renameEntry_logEntry oldName (trimStr input) e]
  · rw [hview.length_eq, List.length_map]
  · exact hview

/-- C6 witness: renaming "Ann" to "Zoe" on a concrete state succeeds and
keeps the merged view the same size. -/
theorem renameMember_propagates_witness :
    ∃ s1, renameMember "Ann" "Zoe"
        ⟨[⟨"Ann"⟩, ⟨"Bob"⟩], [⟨"Ann", 1⟩], [⟨"Bob", 2, 3⟩], ""⟩ = .ok s1 ∧
      (mergedView s1).length
        = (mergedView ⟨[⟨"Ann"⟩, ⟨"Bob"⟩], [⟨"Ann", 1⟩], [⟨"Bob", 2, 3⟩], ""⟩).length := by
  obtain ⟨s1, hok, -, -, -, -, -, hlen, -⟩ :=
    renameMember_propagates ⟨[⟨"Ann"⟩, ⟨"Bob"⟩], [⟨"Ann", 1⟩], [⟨"Bob", 2, 3⟩], ""⟩
      "Ann" "Zoe" (by decide) (by decide)
  exact ⟨s1, hok, hlen⟩

/-! ### String-level lemmas for the export format -/

theorem strData_append (a b : String) : (a ++ b).data = a.data ++ b.data := by
  cases a
  cases b
  rfl

theorem strLen_append (a b : String) : (a ++ b).length = a.length + b.length := by
  show (a ++ b).data.length = a.data.length + b.data.length
  rw [strData_append, List.length_append]

theorem strAppend_assoc (a b c : String) : a ++ b ++ c = a ++ (b ++ c) := by
  cases a
  cases b
  cases c
  show String.mk _ = String.mk _
  rw [List.append_assoc]

theorem containsStr_refl (m : String) : containsStr m m :=
  ⟨[], [], by simp⟩

theorem containsStr_append_left (a b m : String) (h : containsStr b m) :
    containsStr (a ++ b) m := by
  obtain ⟨s, t, hst⟩ := h
  refine ⟨a.data ++ s, t, ?_⟩
  rw [strData_append, ← hst]
  simp

theorem containsStr_append_right (a b m : String) (h : containsStr a m) :
    containsStr (a ++ b) m := by
  obtain ⟨s, t, hst⟩ := h
  refine ⟨s, t ++ b.data, ?_⟩
  rw [strData_append, ← hst]
  simp

theorem maxNameLength_cons (e : ViewEntry) (v : List ViewEntry) :
    maxNameLength (e :: v) = max e.name.length (maxNameLength v) := rfl

theorem le_maxNameLength (view : List ViewEntry) :
    "Member".length ≤ maxNameLength view := by
  induction view with
  | nil => exact le_rfl
  | cons e v ih =>
    rw [maxNameLength_cons]
    exact le_trans ih (Nat.le_max_right _ _)

theorem name_le_maxNameLength (view : List ViewEntry) :
    ∀ e ∈ view, e.name.length ≤ maxNameLength view := by
  induction view with
  | nil =>
    intro e he
    cases he
  | cons x v ih =>
    intro e he
    rw [maxNameLength_cons]
    rcases List.mem_cons.mp he with h | h
    · subst h
      exact Nat.le_max_left _ _
    · exact le_trans (ih e h) (Nat.le_max_right _ _)

theorem maxNameLength_attained (view : List ViewEntry) :
    maxNameLength view = "Member".length ∨
      ∃ e ∈ view, maxNameLength view = e.name.length := by
  induction view with
  | nil => exact Or.inl rfl
  | cons x v ih =>
    rw [maxNameLength_cons]
    rcases le_total x.name.length (maxNameLength v) with h | h
    · rw [Nat.max_eq_right h]
      rcases ih with h' | ⟨e, he, h'⟩
      · exact Or.inl h'
      · exact Or.inr ⟨e, List.mem_cons_of_mem _ he, h'⟩
    · rw [Nat.max_eq_left h]
      exact Or.inr ⟨x, List.mem_cons_self _ _, rfl⟩

theorem padEnd_length (str : String) (w : Nat) :
    (padEnd str w).length = str.length + (w - str.length) := by
  show (padEnd str w).data.length = str.data.length + (w - str.data.length)
  unfold padEnd
  rw [strData_append]
  simp

theorem strLen_mk_replicate (n : Nat) (c : Char) :
    (String.mk (List.replicate n c)).length = n := by
  show (List.replicate n c).length = n
  simp

/-- C8 counterexample: a member whose name is the literal no-records
message signs in; the merged view is non-empty, yet the export text
contains "No attendance records found." (inside the table row), so the
containment does not hold *exactly* when the view is empty. -/
theorem noRecords_message_not_only_when_empty :
    ¬ mergedView ⟨[], [⟨"No attendance records found.", 0⟩], [], ""⟩ = [] ∧
    containsStr
      (formatExport 0 ⟨[], [⟨"No attendance records found.", 0⟩], [], ""⟩)
      "No attendance records found." := by
  constructor
  · decide
  · unfold formatExport
    apply containsStr_append_left
    unfold exportBody
    rw [if_pos (by decide)]
    apply containsStr_append_left
    show containsStr
      (exportRow 28 ⟨"No attendance records found.", 0, none, .signedIn⟩)
      "No attendance records found."
    unfold exportRow
    apply containsStr_append_right
    apply containsStr_append_right
    apply containsStr_append_right
    apply containsStr_append_right
    apply containsStr_append_right
    apply containsStr_append_right
    apply containsStr_append_right
    unfold padEnd
    apply containsStr_append_right
    exact containsStr_refl _

/-- C8 (amended): the export body is the no-records message exactly when
the merged view is empty, and then the output contains the literal
message (the "only when empty" converse fails just because a member name
may itself embed the message text); the name column width is the maximum
of the longest rendered name and the length of "Member", every rendered
name cell padding to exactly that width; every in-progress row ends with
the "..." placeholder instead of a timestamp; and a non-empty view's
output embeds the concatenation of one rendered row per entry. -/
theorem formatExport_properties (g : Nat) (s : AppState) :
    (exportBody s = noRecordsText ↔ mergedView s = []) ∧
    (mergedView s = [] →
      containsStr (formatExport g s) "No attendance records found.") ∧
    ("Member".length ≤ maxNameLength (mergedView s) ∧
      (∀ e ∈ mergedView s, e.name.length ≤ maxNameLength (mergedView s)) ∧
      (maxNameLength (mergedView s) = "Member".length ∨
        ∃ e ∈ mergedView s, maxNameLength (mergedView s) = e.name.length)) ∧
    (∀ e ∈ mergedView s,
      (padEnd e.name (maxNameLength (mergedView s))).length
        = maxNameLength (mergedView s)) ∧
    (∀ e ∈ mergedView s, e.signOutTime = none →
      ∃ p, exportRow (maxNameLength (mergedView s)) e = p ++ "...\n") ∧
    (¬ mergedView s = [] →
      containsStr (formatExport g s)
        (String.join ((mergedView s).map (exportRow (maxNameLength (mergedView s)))))) := by
  refine ⟨⟨?_, ?_⟩, ?_, ⟨le_maxNameLength _, name_le_maxNameLength _,
    maxNameLength_attained _⟩, ?_, ?_, ?_⟩
  · intro h
    by_contra hne
    have hlen : 0 < (mergedView s).length := List.length_pos.mpr hne
    unfold exportBody at h
    rw [if_pos hlen] at h
    have hlen2 := congrArg String.length h
    simp only [strLen_append, padEnd_length, strLen_mk_replicate,
      show ("Member" : String).length = 6 from rfl,
      show (" | " : String).length = 3 from rfl,
      show ("Status" : String).length = 6 from rfl,
      show ("Signed In" : String).length = 9 from rfl,
      show ("Signed Out" : String).length = 10 from rfl,
      show ("\n" : String).length = 1 from rfl,
      show ("-+-" : String).length = 3 from rfl,
      show noRecordsText.length = 30 from rfl] at hlen2
    omega
  · intro h
    unfold exportBody
    rw [if_neg (by simp [h])]
  · intro h
    unfold formatExport
    apply containsStr_append_left
    unfold exportBody
    rw [if_neg (by simp [h])]
    exact ⟨['\n'], ['\n'], by decide⟩
  · intro e he
    rw [padEnd_length]
    have := name_le_maxNameLength (mergedView s) e he
    omega
  · intro e he hnone
    refine ⟨padEnd e.name (maxNameLength (mergedView s)) ++ " | " ++
      padEnd (statusText e.status) 12 ++ " | " ++
      padEnd (formatDateTime (some e.signInTime)) 22 ++ " | ", ?_⟩
    unfold exportRow
    rw [hnone]
    rw [strAppend_assoc]
    rfl
  · intro hne
    unfold formatExport
    apply containsStr_append_left
    unfold exportBody
    rw [if_pos (List.length_pos.mpr hne)]
    apply containsStr_append_left
    exact containsStr_refl _

/-- C8 witness: on the empty state the export contains the no-records
message. -/
theorem formatExport_properties_witness :
    containsStr (formatExport 5 ⟨[], [], [], ""⟩) "No attendance records found." :=
  (formatExport_properties 5 ⟨[], [], [], ""⟩).2.1 rfl

end GFSAR
